import Mathlib

/-!
Shallow embedding of the interview-lifecycle core of `src/main.py`
(AI Interview Screener backend).

The embedded pieces are the handlers that mutate an `Interview` row:
`voice_event` (call-status webhook), `voice_record` (recording webhook:
transcription + answer upsert), `get_interview` (result read with the lazy
scoring side-effect), `simulate_answers` (dev-mode bulk answer injection),
the dispatch step of `trigger_interview`, and the path check of
`serve_artifact`.  External ports (transcriber, scorer, dispatcher) are
passed in as explicit `Except`-valued results; statuses are the raw strings
the Python code stores.
-/

namespace Screener

/-- Answer record, one element of the `Interview.answers` JSON list.
`score`/`rationale` model JSON keys that may be absent (outer `Option`)
or present with a `null` value (inner `Option`), matching Python's
`"score" in a` / `a.get("score")` distinction. -/
structure Answer where
  q_idx : Int
  question : String
  recording_url : String
  local_audio : String
  transcript : String
  score : Option (Option Int)
  rationale : Option (Option String)
deriving DecidableEq, Repr

/-- Job row: id plus the ordered question list (the only fields the
lifecycle handlers read). -/
structure Job where
  id : String
  questions : List String
deriving DecidableEq, Repr

/-- Interview row as stored by the SQLAlchemy model. -/
structure Interview where
  id : String
  job_id : String
  candidate_id : String
  status : String
  provider_call_id : Option String
  answers : List Answer
  final_recommendation : Option String
deriving DecidableEq, Repr

/-- Python truthiness of an optional string (`not inter.final_recommendation`):
`None` and `""` are falsy. -/
def pyTruthy : Option String → Bool
  | none => false
  | some t => !(t == "")

/-- Interview row as created by `trigger_interview`
(`status="calling", answers=[]`). -/
def mkInterview (id job_id candidate_id : String) : Interview :=
  { id := id, job_id := job_id, candidate_id := candidate_id
    status := "calling", provider_call_id := none
    answers := [], final_recommendation := none }

/-- Outcome of the Vonage dispatch step of `trigger_interview`.
`httpError` is the one failure the code detects (`r.status_code >= 300`);
`raised` is any exception escaping the dispatch path — an httpx transport
error or timeout at the `hx.post` call, `build_vonage_jwt`'s
HTTPException when the key is not configured, or `r.json()` failing on a
malformed 2xx body — none of which the code catches.  `success` carries
`resp_data.get("uuid")`, which may itself be absent. -/
inductive DispatchOutcome where
  | raised (e : String)
  | httpError (code : Nat) (body : String)
  | success (callId : Option String)
deriving DecidableEq, Repr

/-- What the trigger caller sees: the success payload, the explicit
`HTTPException(r.status_code, ...)` of the detected branch, or a
propagated unhandled exception (a generic 500). -/
inductive TriggerResult where
  | ok (callId : Option String)
  | httpError (code : Nat) (body : String)
  | unhandled (e : String)
deriving DecidableEq, Repr

/-- Dispatch step of `trigger_interview` (production path, lines 483-514):
only a response with status >= 300 marks the interview `failed` and raises
the dispatch HTTPException; an exception anywhere in the dispatch path
propagates with the row untouched (still `calling`, no provider_call_id);
on success `provider_call_id` is stored and status advances to
`in_progress`. -/
def dispatchResolve (inter : Interview) (dispatch : DispatchOutcome) :
    TriggerResult × Interview :=
  match dispatch with
  | .raised e => (.unhandled e, inter)
  | .httpError code body => (.httpError code body, { inter with status := "failed" })
  | .success callId =>
      (.ok callId, { inter with status := "in_progress", provider_call_id := callId })

/-- Call-status webhook `voice_event` (lines 589-602): only the four
terminal provider strings are acted on; the guard skips interviews already
`completed`; a `completed` report assigns the current status back. -/
def voice_event (evStatus : String) (inter : Interview) : Interview :=
  if evStatus == "completed" || evStatus == "failed" ||
     evStatus == "timeout" || evStatus == "rejected" then
    if !(inter.status == "completed") then
      { inter with status := if !(evStatus == "completed") then evStatus else inter.status }
    else inter
  else inter

/-- Sentinel transcript stored when the transcriber raises
(`f"(transcription_failed: {e})"`). -/
def sentinelTranscript (e : String) : String :=
  "(transcription_failed: " ++ e ++ ")"

/-- Transcript actually stored: the transcriber's text on success, the
sentinel on failure (the `try/except` around `openai_transcribe_from_url`). -/
def renderTranscript : Except String String → String
  | .ok t => t
  | .error e => sentinelTranscript e

/-- Fresh answer dict appended by `voice_record` when the index is new. -/
def newAnswer (q : Int) (question u la t : String) : Answer :=
  { q_idx := q, question := question, recording_url := u, local_audio := la
    transcript := t, score := none, rationale := none }

/-- The upsert loop of `voice_record`: update the first entry whose
`q_idx` matches (keeping its `score`/`rationale` keys, as `dict.update`
does) and report whether a match was found. -/
def upsertAnswer (q : Int) (question u la t : String) :
    List Answer → List Answer × Bool
  | [] => ([], false)
  | a :: rest =>
    if a.q_idx == q then
      ({ a with
          question := question
          recording_url := u
          local_audio := la
          transcript := t } :: rest, true)
    else
      (a :: (upsertAnswer q question u la t rest).1,
       (upsertAnswer q question u la t rest).2)

/-- Upsert applied to the interview: overwrite in place if found, else
append a fresh answer (`if not found: answers.append(...)`). -/
def doUpsert (inter : Interview) (q : Int) (question u la t : String) : Interview :=
  if (upsertAnswer q question u la t inter.answers).2 then
    { inter with answers := (upsertAnswer q question u la t inter.answers).1 }
  else
    { inter with answers := (upsertAnswer q question u la t inter.answers).1
                              ++ [newAnswer q question u la t] }

/-- Question text chosen by `voice_record`:
`job.questions[q_idx] if 0 <= q_idx < len(job.questions) else f"Q{q_idx+1}"`. -/
def questionFor (job : Job) (q : Int) : String :=
  if 0 ≤ q ∧ q < (job.questions.length : Int) then job.questions.getD q.toNat ""
  else "Q" ++ toString (q + 1)

/-- Local artifact locator stored on the answer
(`f"/v1/artifacts/{interview_id}/q_{q_idx}.mp3"`). -/
def localAudioFor (interview_id : String) (q : Int) : String :=
  "/v1/artifacts/" ++ interview_id ++ "/q_" ++ toString q ++ ".mp3"

/-- Outcome of the recording webhook as seen by the caller. `attrError`
models the unhandled `AttributeError` raised when the interview's job row
is missing and `len(job.questions)` is evaluated on `None` (Python's
chained comparison skips it when `0 <= q_idx` is already false). -/
inductive RecOutcome where
  | ok
  | badRequest
  | notFound
  | attrError
deriving DecidableEq, Repr

/-- Recording webhook `voice_record` (lines 605-660): extract the
recording url (400 if absent), look up the interview (404 if absent),
transcribe (sentinel on failure), pick the question text and upsert. -/
def voice_record (inter? : Option Interview) (job? : Option Job) (q : Int)
    (rec_url? : Option String) (transcribed : Except String String) :
    RecOutcome × Option Interview :=
  match rec_url? with
  | none => (.badRequest, inter?)
  | some u =>
    match inter? with
    | none => (.notFound, none)
    | some inter =>
      let t := renderTranscript transcribed
      match job? with
      | none =>
        if 0 ≤ q then (.attrError, some inter)
        else (.ok, some (doUpsert inter q ("Q" ++ toString (q + 1)) u
                          (localAudioFor inter.id q) t))
      | some job =>
        (.ok, some (doUpsert inter q (questionFor job q) u (localAudioFor inter.id q) t))

/-- Per-answer entry returned by the scorer
(`{"q_idx":..,"score":..,"rationale":..}`; `score`/`rationale` keys may be
absent, hence `Option`). -/
structure PerAnswer where
  q_idx : Int
  score : Option Int
  rationale : Option String
deriving DecidableEq, Repr

/-- Scorer result shape (`openai_score`): `per_answer` list plus an
optional `recommendation` string. -/
structure ScoreResult where
  per_answer : List PerAnswer
  recommendation : Option String
deriving DecidableEq, Repr

/-- Stable insertion of one answer after every element with a key ≤ its
key, mirroring Python's stable `sorted(..., key=q_idx)`. -/
def insertSorted (a : Answer) : List Answer → List Answer
  | [] => [a]
  | b :: bs => if a.q_idx < b.q_idx then a :: b :: bs else b :: insertSorted a bs

/-- Stable sort by `q_idx` (`sorted(inter.answers, key=lambda x: x.get("q_idx", 0))`). -/
def sortAnswers (l : List Answer) : List Answer :=
  l.foldl (fun acc a => insertSorted a acc) []

/-- Last per-answer entry with the given index, mirroring the dict
comprehension `{x["q_idx"]: x for x in pa}` where later entries win. -/
def lastMatch (pa : List PerAnswer) (i : Int) : Option PerAnswer :=
  pa.foldl (fun acc x => if x.q_idx == i then some x else acc) none

/-- Map scorer results back onto the answers by question index
(`a["score"] = b.get("score"); a["rationale"] = b.get("rationale")`;
non-matching indices leave the answer untouched). -/
def applyScores (pa : List PerAnswer) (l : List Answer) : List Answer :=
  l.map fun a =>
    match lastMatch pa a.q_idx with
    | some b => { a with score := some b.score, rationale := some b.rationale }
    | none => a

/-- Completeness check of `get_interview`:
`len(answers_sorted) == len(job.questions) and all(t for t in transcripts)`. -/
def completeTranscribed (inter : Interview) (job : Job) : Bool :=
  (sortAnswers inter.answers).length == job.questions.length &&
  (sortAnswers inter.answers).all (fun a => !(a.transcript == ""))

/-- Guard of the scoring side-effect:
`have_all and (not inter.final_recommendation or not any("score" in a for a in answers_sorted))`. -/
def needsScoring (inter : Interview) (job : Job) : Bool :=
  completeTranscribed inter job &&
  (!pyTruthy inter.final_recommendation ||
   !((sortAnswers inter.answers).any (fun a => a.score.isSome)))

/-- Result of one `get_interview` call: the scorer invocation (its ordered
arguments) if the side-effect fired, and the interview row afterwards. -/
structure ReadResult where
  scorerArgs : Option (List String × List String)
  inter : Interview
deriving DecidableEq, Repr

/-- Result read `get_interview` (lines 663-711), with the scorer's would-be
result passed in.  On a scorer exception the `except: pass` leaves the row
unchanged; on success the sorted, score-decorated answers and the returned
recommendation are persisted and a non-terminal status is promoted to
`completed`. -/
def get_interview (inter : Interview) (job : Job)
    (scorerResult : Except Unit ScoreResult) : ReadResult :=
  if needsScoring inter job then
    match scorerResult with
    | .error _ =>
      { scorerArgs := some (job.questions, (sortAnswers inter.answers).map (fun a => a.transcript))
        inter := inter }
    | .ok scoring =>
      { scorerArgs := some (job.questions, (sortAnswers inter.answers).map (fun a => a.transcript))
        inter := { inter with
          answers := applyScores scoring.per_answer (sortAnswers inter.answers)
          final_recommendation := scoring.recommendation
          status := if inter.status == "completed" || inter.status == "failed"
                    then inter.status else "completed" } }
  else { scorerArgs := none, inter := inter }

/-- Fake answer built by `simulate_answers` for question `idx`. -/
def fakeAnswer (interview_id : String) (idx : Nat) (question transcript : String) : Answer :=
  { q_idx := (idx : Int), question := question
    recording_url := "https://fake-recording-service.com/interview_" ++ interview_id ++
      "_q_" ++ toString idx ++ ".mp3"
    local_audio := "/v1/dev/fake-audio/" ++ interview_id ++ "/q_" ++ toString idx ++ ".mp3"
    transcript := transcript, score := none, rationale := none }

/-- Dev-mode `simulate_answers` (lines 517-562): replaces the whole answer
list with one fake answer per question (the random transcripts are passed
in) and sets the status to `completed` unconditionally. -/
def simulate_answers (inter : Interview) (job : Job) (fakes : List String) : Interview :=
  { inter with
    answers := ((job.questions.zip fakes).enum).map
      (fun p => fakeAnswer inter.id p.1 p.2.1 p.2.2)
    status := "completed" }

/-- One recording-callback delivery: question index, recording url,
transcription outcome. -/
abbrev RecCall := Int × String × Except String String

/-- Apply one recording callback to an interview whose row and job row are
present (the happy lookup path of `voice_record`). -/
def applyRec (job : Job) (inter : Interview) (r : RecCall) : Interview :=
  ((voice_record (some inter) (some job) r.1 (some r.2.1) r.2.2).2).getD inter

/-- Deliver a sequence of recording callbacks in order. -/
def runRecords (job : Job) (inter : Interview) (rs : List RecCall) : Interview :=
  rs.foldl (applyRec job) inter

/-- Number of answers carrying a given question index. -/
def countIdx (l : List Answer) (q : Int) : Nat :=
  (l.filter (fun a => a.q_idx == q)).length

/-- Uniqueness of question indices inside one interview's answer list. -/
def uniqueIdx (l : List Answer) : Prop :=
  (l.map (fun a => a.q_idx)).Nodup

/-- One inbound operation on an interview: call-status event, recording
callback, result read (with the scorer's would-be result), or dev-mode
simulate-answers (with its random transcripts). -/
inductive Op where
  | callEvent (evStatus : String)
  | recordCb (q_idx : Int) (rec_url : String) (transcribed : Except String String)
  | resultRead (scorerResult : Except Unit ScoreResult)
  | simAnswers (fakes : List String)
deriving Repr

/-- Apply one operation to the interview row (job row fixed and present). -/
def applyOp (job : Job) (inter : Interview) : Op → Interview
  | .callEvent s => voice_event s inter
  | .recordCb q u t => applyRec job inter (q, u, t)
  | .resultRead r => (get_interview inter job r).inter
  | .simAnswers fakes => simulate_answers inter job fakes

/-- Run a sequence of operations in order. -/
def runOps (job : Job) (inter : Interview) (ops : List Op) : Interview :=
  ops.foldl (applyOp job) inter

/-- Iterate `get_interview`; the list holds, per read, what the scorer
would return if invoked on that read.  Returns the total number of scorer
invocations and the final row. -/
def readCount : List (Except Unit ScoreResult) → Interview → Job → Nat × Interview
  | [], inter, _ => (0, inter)
  | r :: rs, inter, job =>
    ((if (get_interview inter job r).scorerArgs.isSome then 1 else 0) +
       (readCount rs (get_interview inter job r).inter job).1,
     (readCount rs (get_interview inter job r).inter job).2)

/-- Split a character list on slashes, as `"/a/b".split("/")` would. -/
def splitOnSlash : List Char → List Char → List (List Char)
  | [], acc => [acc.reverse]
  | c :: cs, acc =>
    if c = '/' then acc.reverse :: splitOnSlash cs [] else splitOnSlash cs (c :: acc)

/-- Resolve `.`, `..` and empty components against a stack, as
`os.path.normpath` does on an absolute path (`..` above the root stays at
the root). -/
def resolveDots : List (List Char) → List (List Char) → List (List Char)
  | [], stack => stack.reverse
  | comp :: rest, stack =>
    if comp = [] ∨ comp = ['.'] then resolveDots rest stack
    else if comp = ['.', '.'] then resolveDots rest stack.tail
    else resolveDots rest (comp :: stack)

/-- Rejoin path components with slashes. -/
def joinComponents : List (List Char) → List Char
  | [] => []
  | c :: cs => c ++ (cs.map (fun x => '/' :: x)).flatten

/-- Model of `os.path.abspath` on an already-absolute path: normalize the
component list and re-anchor at the root. -/
def abspathData (p : List Char) : List Char :=
  '/' :: joinComponents (resolveDots (splitOnSlash p []) [])

/-- Model of `os.path.join(root, p)`: an absolute second argument discards
the first. -/
def pyJoin (root p : List Char) : List Char :=
  if p.head? = some '/' then p else root ++ '/' :: p

/-- The artifact store root, `os.path.abspath("./artifacts")`
(absolute; the concrete prefix stands in for the deployment directory). -/
def ARTIFACTS_DIR : String := "/work/artifacts"

/-- The guard of `serve_artifact` (lines 714-718):
`os.path.abspath(os.path.join(ARTIFACTS_DIR, path)).startswith(ARTIFACTS_DIR)`;
`true` means the request is served (given the file exists). -/
def serve_artifact_check (path : String) : Bool :=
  ARTIFACTS_DIR.data.isPrefixOf (abspathData (pyJoin ARTIFACTS_DIR.data path.data))

/-- The file actually served: the resolved absolute path of the request. -/
def resolvedPath (path : String) : List Char :=
  abspathData (pyJoin ARTIFACTS_DIR.data path.data)

/-- A resolved path lies inside the store root when it is the root itself
or extends it past a path separator. -/
def insideRootData (root resolved : List Char) : Bool :=
  resolved == root || (root ++ ['/']).isPrefixOf resolved

end Screener

namespace Screener

/-! Concrete fixtures used by the scenario theorems and counterexamples. -/

/-- Scenario A job: three questions. -/
def jobA : Job := { id := "ja", questions := ["Q1", "Q2", "Q3"] }

/-- Scenario A interview before any callback, dispatched and in progress. -/
def interA0 : Interview :=
  { mkInterview "ia" "ja" "ca" with status := "in_progress", provider_call_id := some "call-a" }

/-- Scenario A deliveries in the order 1, 0, 2. -/
def deliver102 : List RecCall :=
  [(1, "u1", .ok "a1"), (0, "u0", .ok "a0"), (2, "u2", .ok "a2")]

/-- Scenario A deliveries in the order 0, 1, 2. -/
def deliver012 : List RecCall :=
  [(0, "u0", .ok "a0"), (1, "u1", .ok "a1"), (2, "u2", .ok "a2")]

/-- One-question job used by the small counterexamples. -/
def jobC : Job := { id := "jc", questions := ["Q1"] }

/-- Complete, transcribed, unscored interview over `jobC`. -/
def interC : Interview :=
  { id := "ic", job_id := "jc", candidate_id := "cc", status := "in_progress"
    provider_call_id := some "call-c"
    answers := [{ q_idx := 0, question := "Q1", recording_url := "u0"
                  local_audio := "/v1/artifacts/ic/q_0.mp3", transcript := "a0"
                  score := none, rationale := none }]
    final_recommendation := none }

/-- Scorer result with an empty `per_answer` list (exactly what
`openai_score` returns when the model's output fails to parse). -/
def recNeutral : ScoreResult := { per_answer := [], recommendation := some "Neutral" }

/-- A second scorer result with a different recommendation. -/
def recYes : ScoreResult := { per_answer := [], recommendation := some "Yes" }

/-- A well-formed scorer result matching answer index 0. -/
def recGood : ScoreResult :=
  { per_answer := [{ q_idx := 0, score := some 4, rationale := some "solid" }]
    recommendation := some "Yes" }

/-- Fresh interview over `jobC` with no answers. -/
def inter1 : Interview := mkInterview "i1" "jc" "c1"

/-- An interview whose status is `failed`. -/
def interF : Interview := { mkInterview "if0" "jc" "cf" with status := "failed" }

/-- An interview whose status is `completed`. -/
def interDone : Interview := { mkInterview "id0" "jc" "cd" with status := "completed" }

end Screener

namespace Screener

/-! Basic preservation lemmas about the embedded handlers. -/

theorem voice_event_answers (s : String) (inter : Interview) :
    (voice_event s inter).answers = inter.answers := by
  unfold voice_event
  split <;> [skip; rfl]
  split <;> rfl

theorem voice_event_final (s : String) (inter : Interview) :
    (voice_event s inter).final_recommendation = inter.final_recommendation := by
  unfold voice_event
  split <;> [skip; rfl]
  split <;> rfl

theorem voice_event_completed (s : String) (inter : Interview)
    (h : inter.status = "completed") : (voice_event s inter).status = "completed" := by
  unfold voice_event
  split
  · rw [if_neg]
    · exact h
    · simp [h]
  · exact h

theorem doUpsert_status (inter : Interview) (q : Int) (qs u la t : String) :
    (doUpsert inter q qs u la t).status = inter.status := by
  unfold doUpsert
  split <;> rfl

theorem doUpsert_final (inter : Interview) (q : Int) (qs u la t : String) :
    (doUpsert inter q qs u la t).final_recommendation = inter.final_recommendation := by
  unfold doUpsert
  split <;> rfl

theorem applyRec_eq (job : Job) (inter : Interview) (q : Int) (u : String)
    (t : Except String String) :
    applyRec job inter (q, u, t)
      = doUpsert inter q (questionFor job q) u (localAudioFor inter.id q)
          (renderTranscript t) := rfl

theorem applyRec_status (job : Job) (inter : Interview) (r : RecCall) :
    (applyRec job inter r).status = inter.status := by
  obtain ⟨q, u, t⟩ := r
  rw [applyRec_eq, doUpsert_status]

theorem applyRec_final (job : Job) (inter : Interview) (r : RecCall) :
    (applyRec job inter r).final_recommendation = inter.final_recommendation := by
  obtain ⟨q, u, t⟩ := r
  rw [applyRec_eq, doUpsert_final]

theorem simulate_answers_status (inter : Interview) (job : Job) (fakes : List String) :
    (simulate_answers inter job fakes).status = "completed" := rfl

theorem simulate_answers_final (inter : Interview) (job : Job) (fakes : List String) :
    (simulate_answers inter job fakes).final_recommendation = inter.final_recommendation := rfl

theorem get_interview_no_invoke (inter : Interview) (job : Job)
    (r : Except Unit ScoreResult) (h : needsScoring inter job = false) :
    get_interview inter job r = { scorerArgs := none, inter := inter } := by
  unfold get_interview
  rw [h]
  rfl

theorem get_interview_status_terminal (inter : Interview) (job : Job)
    (r : Except Unit ScoreResult)
    (h : inter.status = "completed" ∨ inter.status = "failed") :
    (get_interview inter job r).inter.status = inter.status := by
  unfold get_interview
  split
  · match r with
    | .error _ => rfl
    | .ok scoring =>
      simp only
      rw [if_pos]
      rcases h with h | h <;> simp [h]
  · rfl

/-! Lemmas about the stable sort. -/

theorem mem_insertSorted (a b : Answer) (l : List Answer) :
    b ∈ insertSorted a l ↔ b = a ∨ b ∈ l := by
  induction l with
  | nil => simp [insertSorted]
  | cons c cs ih =>
    unfold insertSorted
    split
    · simp
    · simp only [List.mem_cons, ih]
      tauto

theorem mem_sortAnswers (b : Answer) (l : List Answer) :
    b ∈ sortAnswers l ↔ b ∈ l := by
  have key : ∀ (l acc : List Answer),
      b ∈ l.foldl (fun acc a => insertSorted a acc) acc ↔ b ∈ acc ∨ b ∈ l := by
    intro l
    induction l with
    | nil => simp
    | cons c cs ih =>
      intro acc
      simp only [List.foldl_cons, ih, mem_insertSorted, List.mem_cons]
      tauto
  unfold sortAnswers
  rw [key]
  simp

theorem sortAnswers_any (p : Answer → Bool) (l : List Answer) :
    (sortAnswers l).any p = l.any p := by
  cases hl : l.any p with
  | true =>
    rw [List.any_eq_true] at hl ⊢
    obtain ⟨a, ha, hp⟩ := hl
    exact ⟨a, (mem_sortAnswers a l).mpr ha, hp⟩
  | false =>
    rw [List.any_eq_false] at hl ⊢
    intro a ha
    exact hl a ((mem_sortAnswers a l).mp ha)

/-! Lemmas about the answer upsert. -/

theorem upsert_fst_map_idx (q : Int) (qs u la t : String) (l : List Answer) :
    ((upsertAnswer q qs u la t l).1.map (fun a => a.q_idx)) = l.map (fun a => a.q_idx) := by
  induction l with
  | nil => rfl
  | cons a rest ih =>
    unfold upsertAnswer
    split
    · rfl
    · simpa using ih

theorem upsert_found_any (q : Int) (qs u la t : String) (l : List Answer) :
    (upsertAnswer q qs u la t l).2 = l.any (fun a => a.q_idx == q) := by
  induction l with
  | nil => rfl
  | cons a rest ih =>
    unfold upsertAnswer
    split
    · next h => simp [h]
    · next h => simp only [List.any_cons, h, Bool.false_or]; exact ih

theorem upsert_fst_of_not_found (q : Int) (qs u la t : String) (l : List Answer)
    (h : (upsertAnswer q qs u la t l).2 = false) :
    (upsertAnswer q qs u la t l).1 = l := by
  induction l with
  | nil => rfl
  | cons a rest ih =>
    unfold upsertAnswer at h ⊢
    split at h
    · exact absurd h (by simp)
    · next hne =>
      have hne2 : ¬ a.q_idx = q := by simpa using hne
      simp [ih (by simpa using h), hne2]

theorem upsert_any_scored (q : Int) (qs u la t : String) (l : List Answer) :
    (upsertAnswer q qs u la t l).1.any (fun a => a.score.isSome)
      = l.any (fun a => a.score.isSome) := by
  induction l with
  | nil => rfl
  | cons a rest ih =>
    unfold upsertAnswer
    split
    · simp
    · simp only [List.any_cons]
      rw [ih]

theorem doUpsert_uniqueIdx (inter : Interview) (q : Int) (qs u la t : String)
    (h : uniqueIdx inter.answers) :
    uniqueIdx (doUpsert inter q qs u la t).answers := by
  unfold doUpsert uniqueIdx
  split
  · rw [upsert_fst_map_idx]
    exact h
  · next hf =>
    have hnf : (upsertAnswer q qs u la t inter.answers).2 = false := by
      revert hf
      cases (upsertAnswer q qs u la t inter.answers).2 <;> simp
    have hq : q ∉ inter.answers.map (fun a => a.q_idx) := by
      rw [upsert_found_any, List.any_eq_false] at hnf
      intro hmem
      obtain ⟨a, ha, hqa⟩ := List.mem_map.mp hmem
      exact hnf a ha (by simp [hqa])
    simp only [List.map_append, upsert_fst_map_idx]
    rw [List.nodup_append]
    refine ⟨h, by simp [newAnswer], ?_⟩
    simpa [newAnswer] using hq

theorem doUpsert_scored (inter : Interview) (q : Int) (qs u la t : String)
    (h : inter.answers.any (fun a => a.score.isSome) = true) :
    (doUpsert inter q qs u la t).answers.any (fun a => a.score.isSome) = true := by
  unfold doUpsert
  split
  · rw [upsert_any_scored]
    exact h
  · simp only [List.any_append, upsert_any_scored, h, Bool.true_or]

theorem countIdx_map (l : List Answer) (q : Int) :
    countIdx l q = ((l.map (fun a => a.q_idx)).filter (fun x => x == q)).length := by
  induction l with
  | nil => rfl
  | cons a rest ih =>
    unfold countIdx at ih ⊢
    by_cases h : a.q_idx = q
    · simp [List.filter_cons, h, ih]
    · simp [List.filter_cons, h, ih]

theorem nodup_filter_len (m : List Int) (q : Int) (hd : m.Nodup) (hm : q ∈ m) :
    (m.filter (fun x => x == q)).length = 1 := by
  have h1 : m.count q = 1 := List.count_eq_one_of_mem hd hm
  rw [List.count_eq_countP, List.countP_eq_length_filter] at h1
  exact h1

theorem not_mem_filter_len (m : List Int) (q : Int) (hq : q ∉ m) :
    (m.filter (fun x => x == q)).length = 0 := by
  have h1 : m.count q = 0 := List.count_eq_zero.mpr hq
  rw [List.count_eq_countP, List.countP_eq_length_filter] at h1
  exact h1

theorem doUpsert_countIdx (inter : Interview) (q : Int) (qs u la t : String)
    (h : uniqueIdx inter.answers) :
    countIdx (doUpsert inter q qs u la t).answers q = 1 := by
  unfold doUpsert
  split
  · next hf =>
    rw [countIdx_map, upsert_fst_map_idx]
    have hq : q ∈ inter.answers.map (fun a => a.q_idx) := by
      rw [upsert_found_any, List.any_eq_true] at hf
      obtain ⟨a, ha, hqa⟩ := hf
      exact List.mem_map.mpr ⟨a, ha, by simpa using hqa⟩
    exact nodup_filter_len _ q h hq
  · next hf =>
    have hnf : (upsertAnswer q qs u la t inter.answers).2 = false := by
      revert hf
      cases (upsertAnswer q qs u la t inter.answers).2 <;> simp
    have hq : q ∉ inter.answers.map (fun a => a.q_idx) := by
      rw [upsert_found_any, List.any_eq_false] at hnf
      intro hmem
      obtain ⟨a, ha, hqa⟩ := List.mem_map.mp hmem
      exact hnf a ha (by simp [hqa])
    rw [countIdx_map]
    simp only [List.map_append, upsert_fst_map_idx, List.filter_append, List.length_append]
    rw [not_mem_filter_len _ q hq]
    simp [newAnswer]

theorem upsert_data (q : Int) (qs u la t : String) (l : List Answer)
    (h : (l.map (fun a => a.q_idx)).Nodup) :
    ∀ a ∈ (upsertAnswer q qs u la t l).1, a.q_idx = q →
      a.question = qs ∧ a.recording_url = u ∧ a.local_audio = la ∧ a.transcript = t := by
  induction l with
  | nil => intro a ha; exact absurd ha (by simp [upsertAnswer])
  | cons b rest ih =>
    unfold upsertAnswer
    split
    · next hb =>
      intro a ha haq
      rw [List.map_cons] at h
      have hcomp := List.nodup_cons.mp h
      rcases List.mem_cons.mp ha with rfl | har
      · exact ⟨rfl, rfl, rfl, rfl⟩
      · exfalso
        have hb2 : b.q_idx = q := by simpa using hb
        exact hcomp.1 (by
          rw [hb2, ← haq]
          exact List.mem_map_of_mem _ har)
    · next hb =>
      intro a ha haq
      rw [List.map_cons] at h
      have hcomp := List.nodup_cons.mp h
      rcases List.mem_cons.mp ha with rfl | har
      · exact absurd haq (by simpa using hb)
      · exact ih hcomp.2 a har haq

theorem upsert_exists_of_found (q : Int) (qs u la t : String) (l : List Answer)
    (hf : (upsertAnswer q qs u la t l).2 = true) :
    ∃ a ∈ (upsertAnswer q qs u la t l).1, a.q_idx = q ∧ a.transcript = t := by
  induction l with
  | nil => exact absurd hf (by simp [upsertAnswer])
  | cons b rest ih =>
    unfold upsertAnswer at hf ⊢
    split at hf
    · next hb =>
      refine ⟨{ b with question := qs, recording_url := u, local_audio := la, transcript := t },
        by simp [show b.q_idx = q by simpa using hb], by simpa using hb, rfl⟩
    · next hb =>
      simp only at hf
      obtain ⟨a, ha, hq2, ht2⟩ := ih hf
      exact ⟨a, by simp [hb, List.mem_cons.mpr (Or.inr ha)], hq2, ht2⟩

theorem doUpsert_data (inter : Interview) (q : Int) (qs u la t : String)
    (h : uniqueIdx inter.answers) :
    ∀ a ∈ (doUpsert inter q qs u la t).answers, a.q_idx = q →
      a.question = qs ∧ a.recording_url = u ∧ a.local_audio = la ∧ a.transcript = t := by
  unfold doUpsert
  split
  · exact upsert_data q qs u la t inter.answers h
  · next hf =>
    have hnf : (upsertAnswer q qs u la t inter.answers).2 = false := by
      revert hf
      cases (upsertAnswer q qs u la t inter.answers).2 <;> simp
    intro a ha haq
    rcases List.mem_append.mp ha with h1 | h1
    · exfalso
      rw [upsert_fst_of_not_found q qs u la t inter.answers hnf] at h1
      rw [upsert_found_any, List.any_eq_false] at hnf
      exact hnf a h1 (by simp [haq])
    · have : a = newAnswer q qs u la t := by simpa using h1
      subst this
      exact ⟨rfl, rfl, rfl, rfl⟩

theorem doUpsert_exists (inter : Interview) (q : Int) (qs u la t : String) :
    ∃ a ∈ (doUpsert inter q qs u la t).answers, a.q_idx = q ∧ a.transcript = t := by
  unfold doUpsert
  split
  · next hf => exact upsert_exists_of_found q qs u la t inter.answers hf
  · exact ⟨newAnswer q qs u la t, by simp, rfl, rfl⟩

/-! Lemmas about the lazy scoring pass. -/

/-- A scored-and-recommended row: the stored recommendation is truthy and at
least one stored answer carries a `score` key.  In this state the guard of
the scoring side-effect is off for good. -/
def scoredStable (inter : Interview) : Prop :=
  pyTruthy inter.final_recommendation = true ∧
  inter.answers.any (fun a => a.score.isSome) = true

theorem needsScoring_of_stable (inter : Interview) (job : Job)
    (h : scoredStable inter) : needsScoring inter job = false := by
  obtain ⟨h1, h2⟩ := h
  simp [needsScoring, h1, sortAnswers_any, h2]

theorem readCount_stable (rs : List (Except Unit ScoreResult)) (inter : Interview)
    (job : Job) (h : needsScoring inter job = false) :
    readCount rs inter job = (0, inter) := by
  induction rs with
  | nil => rfl
  | cons r rs ih =>
    unfold readCount
    rw [get_interview_no_invoke _ _ _ h]
    simpa using ih

theorem get_interview_ok (inter : Interview) (job : Job) (scoring : ScoreResult)
    (h : needsScoring inter job = true) :
    get_interview inter job (.ok scoring) =
      { scorerArgs := some (job.questions, (sortAnswers inter.answers).map (fun a => a.transcript))
        inter := { inter with
          answers := applyScores scoring.per_answer (sortAnswers inter.answers)
          final_recommendation := scoring.recommendation
          status := if inter.status == "completed" || inter.status == "failed"
                    then inter.status else "completed" } } := by
  unfold get_interview
  rw [h]
  rfl

theorem applyScores_scored (pa : List PerAnswer) (l : List Answer) (a : Answer)
    (ha : a ∈ l) (hm : (lastMatch pa a.q_idx).isSome = true) :
    (applyScores pa l).any (fun x => x.score.isSome) = true := by
  rcases Option.isSome_iff_exists.mp hm with ⟨b, hb⟩
  rw [List.any_eq_true]
  exact ⟨_, List.mem_map_of_mem _ ha, by simp [hb]⟩

theorem stable_after_ok (inter : Interview) (job : Job) (scoring : ScoreResult)
    (hrec : pyTruthy scoring.recommendation = true)
    (hmatch : ∃ a ∈ inter.answers, (lastMatch scoring.per_answer a.q_idx).isSome = true)
    (h : needsScoring inter job = true) :
    scoredStable (get_interview inter job (.ok scoring)).inter := by
  rw [get_interview_ok _ _ _ h]
  refine ⟨hrec, ?_⟩
  obtain ⟨a, ha, hm⟩ := hmatch
  exact applyScores_scored _ _ a ((mem_sortAnswers a _).mpr ha) hm

/-! Lemmas about the answer-count bound. -/

/-- All question indices unique and inside `[0, n)`. -/
def boundedIdx (n : Nat) (l : List Answer) : Prop :=
  (l.map (fun a => a.q_idx)).Nodup ∧ ∀ a ∈ l, 0 ≤ a.q_idx ∧ a.q_idx < (n : Int)

theorem doUpsert_mem_idx (inter : Interview) (q : Int) (qs u la t : String) :
    ∀ a ∈ (doUpsert inter q qs u la t).answers,
      a.q_idx ∈ inter.answers.map (fun x => x.q_idx) ∨ a.q_idx = q := by
  intro a ha
  have hmem : a.q_idx ∈ (doUpsert inter q qs u la t).answers.map (fun x => x.q_idx) :=
    List.mem_map_of_mem _ ha
  revert hmem
  unfold doUpsert
  split
  · rw [upsert_fst_map_idx]
    exact fun hmem => Or.inl hmem
  · simp only [List.map_append, upsert_fst_map_idx]
    intro hmem
    rcases List.mem_append.mp hmem with h1 | h1
    · exact Or.inl h1
    · right
      simpa [newAnswer] using h1

theorem doUpsert_boundedIdx (inter : Interview) (q : Int) (qs u la t : String)
    (n : Nat) (hq : 0 ≤ q ∧ q < (n : Int)) (h : boundedIdx n inter.answers) :
    boundedIdx n (doUpsert inter q qs u la t).answers := by
  refine ⟨doUpsert_uniqueIdx inter q qs u la t h.1, ?_⟩
  intro a ha
  rcases doUpsert_mem_idx inter q qs u la t a ha with h1 | h1
  · obtain ⟨b, hb, hba⟩ := List.mem_map.mp h1
    rw [← hba]
    exact h.2 b hb
  · rw [h1]
    exact hq

theorem length_le_of_bounded (n : Nat) (l : List Answer) (h : boundedIdx n l) :
    l.length ≤ n := by
  obtain ⟨hd, hb⟩ := h
  have hmb : ∀ x ∈ l.map (fun a => a.q_idx), 0 ≤ x ∧ x < (n : Int) := by
    intro x hx
    obtain ⟨a, ha, hax⟩ := List.mem_map.mp hx
    rw [← hax]
    exact hb a ha
  have hnodup : ((l.map (fun a => a.q_idx)).map Int.toNat).Nodup := by
    refine List.Nodup.map_on ?_ hd
    intro x hx y hy hxy
    have h1 := (hmb x hx).1
    have h2 := (hmb y hy).1
    omega
  have hsub : ((l.map (fun a => a.q_idx)).map Int.toNat).toFinset ⊆ Finset.range n := by
    intro x hx
    rw [List.mem_toFinset] at hx
    obtain ⟨y, hy, hyx⟩ := List.mem_map.mp hx
    rw [Finset.mem_range]
    have := hmb y hy
    omega
  have hcard := Finset.card_le_card hsub
  rw [List.toFinset_card_of_nodup hnodup, Finset.card_range] at hcard
  simpa using hcard

/-! Invariants across operation sequences. -/

theorem applyRec_uniqueIdx (job : Job) (inter : Interview) (r : RecCall)
    (h : uniqueIdx inter.answers) : uniqueIdx (applyRec job inter r).answers := by
  obtain ⟨q, u, t⟩ := r
  rw [applyRec_eq]
  exact doUpsert_uniqueIdx _ _ _ _ _ _ h

theorem runRecords_uniqueIdx (job : Job) (recs : List RecCall) (inter : Interview)
    (h : uniqueIdx inter.answers) : uniqueIdx (runRecords job inter recs).answers := by
  induction recs generalizing inter with
  | nil => exact h
  | cons r rs ih => exact ih (applyRec job inter r) (applyRec_uniqueIdx job inter r h)

theorem runRecords_boundedIdx (job : Job) (recs : List RecCall) (inter : Interview)
    (n : Nat) (h : boundedIdx n inter.answers)
    (hin : ∀ r ∈ recs, 0 ≤ r.1 ∧ r.1 < (n : Int)) :
    boundedIdx n (runRecords job inter recs).answers := by
  induction recs generalizing inter with
  | nil => exact h
  | cons r rs ih =>
    refine ih (applyRec job inter r) ?_ (fun x hx => hin x (List.mem_cons.mpr (Or.inr hx)))
    obtain ⟨q, u, t⟩ := r
    rw [applyRec_eq]
    exact doUpsert_boundedIdx _ _ _ _ _ _ n (hin (q, u, t) (List.mem_cons.mpr (Or.inl rfl))) h

theorem applyRec_scored (job : Job) (inter : Interview) (r : RecCall)
    (h : inter.answers.any (fun a => a.score.isSome) = true) :
    (applyRec job inter r).answers.any (fun a => a.score.isSome) = true := by
  obtain ⟨q, u, t⟩ := r
  rw [applyRec_eq]
  exact doUpsert_scored _ _ _ _ _ _ h

/-- Operations that are not the call-status event and not simulate-answers. -/
def passiveOp : Op → Bool
  | .callEvent _ => false
  | .simAnswers _ => false
  | .recordCb _ _ _ => true
  | .resultRead _ => true

/-- Operations other than dev-mode simulate-answers. -/
def notSim : Op → Bool
  | .simAnswers _ => false
  | _ => true

theorem runOps_completed (job : Job) (ops : List Op) :
    ∀ inter : Interview, inter.status = "completed" →
      (runOps job inter ops).status = "completed" := by
  induction ops with
  | nil => exact fun _ h => h
  | cons op ops ih =>
    intro inter h
    refine ih (applyOp job inter op) ?_
    cases op with
    | callEvent s => exact voice_event_completed s inter h
    | recordCb q u t =>
      show (applyRec job inter (q, u, t)).status = "completed"
      rw [applyRec_status]
      exact h
    | resultRead r =>
      show (get_interview inter job r).inter.status = "completed"
      rw [get_interview_status_terminal inter job r (Or.inl h)]
      exact h
    | simAnswers f => exact simulate_answers_status inter job f

theorem runOps_failed (job : Job) (ops : List Op) :
    ∀ inter : Interview, inter.status = "failed" → (∀ op ∈ ops, passiveOp op = true) →
      (runOps job inter ops).status = "failed" := by
  induction ops with
  | nil => exact fun _ h _ => h
  | cons op ops ih =>
    intro inter h hops
    have hop := hops op (List.mem_cons_self _ _)
    refine ih (applyOp job inter op) ?_ (fun o ho => hops o (List.mem_cons.mpr (Or.inr ho)))
    cases op with
    | callEvent s => exact absurd hop (by simp [passiveOp])
    | simAnswers f => exact absurd hop (by simp [passiveOp])
    | recordCb q u t =>
      show (applyRec job inter (q, u, t)).status = "failed"
      rw [applyRec_status]
      exact h
    | resultRead r =>
      show (get_interview inter job r).inter.status = "failed"
      rw [get_interview_status_terminal inter job r (Or.inr h)]
      exact h

theorem sentinel_ne_empty (e : String) : sentinelTranscript e ≠ "" := by
  intro hcon
  have h := congrArg String.length hcon
  rw [sentinelTranscript, String.length_append, String.length_append] at h
  have h1 : "(transcription_failed: ".length = 23 := by decide
  have h2 : ")".length = 1 := by decide
  have h3 : ("" : String).length = 0 := rfl
  omega

/-- Interview already scored: truthy recommendation, answer 0 carries a score. -/
def interScored : Interview :=
  { id := "is", job_id := "jc", candidate_id := "cs", status := "completed"
    provider_call_id := some "call-s"
    answers := [{ q_idx := 0, question := "Q1", recording_url := "u0"
                  local_audio := "/v1/artifacts/is/q_0.mp3", transcript := "a0"
                  score := some (some 4), rationale := some (some "ok") }]
    final_recommendation := some "Yes" }

/-! Claim theorems. -/

/-- C1, counterexample: the claim fails for `failed`.  An interview whose
status is `failed` receives a call-status event reporting `timeout`; the
guard in `voice_event` only protects `completed`, so the status is
overwritten to `timeout`. -/
theorem C1_counterexample :
    interF.status = "failed" ∧ (voice_event "timeout" interF).status ≠ "failed" := by
  decide

/-- C1, amended: once status is `completed`, no sequence of call-status
events, recording callbacks, result reads or simulate-answers changes it;
once status is `failed`, recording callbacks and result reads preserve it
(call-status events carrying `timeout`/`rejected` and simulate-answers do
not). -/
theorem C1_theorem (job : Job) (inter : Interview) (ops : List Op) :
    (inter.status = "completed" → (runOps job inter ops).status = "completed") ∧
    (inter.status = "failed" → (∀ op ∈ ops, passiveOp op = true) →
      (runOps job inter ops).status = "failed") :=
  ⟨fun h => runOps_completed job ops inter h,
   fun h hops => runOps_failed job ops inter h hops⟩

/-- C1, witness: the amended theorem applied to a `completed` and a `failed`
interview with concrete operation sequences. -/
theorem C1_witness :
    (runOps jobC interDone
      [Op.callEvent "timeout", Op.simAnswers ["f1"],
       Op.resultRead (Except.error ())]).status = "completed" ∧
    (runOps jobC interF
      [Op.recordCb 0 "u" (Except.ok "t"),
       Op.resultRead (Except.error ())]).status = "failed" :=
  ⟨(C1_theorem jobC interDone _).1 rfl,
   (C1_theorem jobC interF _).2 rfl (by decide)⟩

/-- C2, counterexample: the interview is complete and fully transcribed,
yet two consecutive reads invoke the scorer twice.  The first scoring
result carries a recommendation but an empty `per_answer` list (exactly
what `openai_score` returns when the model output fails to parse), so no
answer gains a `score` key and the guard fires again on the second read. -/
theorem C2_counterexample :
    completeTranscribed interC jobC = true ∧
    interC.final_recommendation = none ∧
    (readCount [Except.ok recNeutral, Except.ok recYes] interC jobC).1 = 2 := by
  decide

/-- C2, amended: repeated reads perform the scoring side-effect at most
once provided the scoring result carries a truthy recommendation and at
least one `per_answer` entry whose index matches a stored answer;
otherwise scoring is re-attempted on each read. -/
theorem C2_theorem (job : Job) (inter : Interview) (r : ScoreResult)
    (rest : List (Except Unit ScoreResult))
    (hrec : pyTruthy r.recommendation = true)
    (hmatch : ∃ a ∈ inter.answers, (lastMatch r.per_answer a.q_idx).isSome = true) :
    (readCount (Except.ok r :: rest) inter job).1 ≤ 1 := by
  cases h : needsScoring inter job with
  | false =>
    unfold readCount
    rw [get_interview_no_invoke _ _ _ h, readCount_stable rest inter job h]
    simp
  | true =>
    have hst := stable_after_ok inter job r hrec hmatch h
    have h0 := readCount_stable rest (get_interview inter job (.ok r)).inter job
      (needsScoring_of_stable _ job hst)
    unfold readCount
    rw [h0]
    split <;> simp

/-- C2, witness: a complete unscored interview read twice, the first
scoring result well-formed; the scorer runs at most once. -/
theorem C2_witness :
    (readCount [Except.ok recGood, Except.ok recYes] interC jobC).1 ≤ 1 :=
  C2_theorem jobC interC recGood [Except.ok recYes] (by decide) (by decide)

/-- C3: starting from unique question indices, any sequence of recording
callbacks keeps them unique, and one further callback for any index leaves
exactly one answer with that index, carrying the delivered recording url
and transcript (the later delivery wins; nothing is duplicated). -/
theorem C3_theorem (job : Job) (inter : Interview) (recs : List RecCall)
    (h : uniqueIdx inter.answers) :
    uniqueIdx (runRecords job inter recs).answers ∧
    ∀ q u t,
      countIdx (applyRec job (runRecords job inter recs) (q, u, t)).answers q = 1 ∧
      ∀ a ∈ (applyRec job (runRecords job inter recs) (q, u, t)).answers,
        a.q_idx = q → a.recording_url = u ∧ a.transcript = renderTranscript t := by
  have hu := runRecords_uniqueIdx job recs inter h
  refine ⟨hu, fun q u t => ⟨?_, ?_⟩⟩
  · rw [applyRec_eq]
    exact doUpsert_countIdx _ _ _ _ _ _ hu
  · rw [applyRec_eq]
    intro a ha haq
    have hd := doUpsert_data _ _ _ _ _ _ hu a ha haq
    exact ⟨hd.2.1, hd.2.2.2⟩

/-- C3, witness: redelivering index 0 on a concrete interview leaves
exactly one answer with index 0. -/
theorem C3_witness :
    countIdx (applyRec jobC (runRecords jobC interC [(0, "x", Except.ok "t")])
      (0, "y", Except.ok "t2")).answers 0 = 1 :=
  ((C3_theorem jobC interC [(0, "x", Except.ok "t")]
    (by unfold uniqueIdx; decide)).2 0 "y" (Except.ok "t2")).1

/-- C4, counterexample: `voice_record` upserts out-of-range indices too
(with placeholder question text), so two callbacks against a one-question
job leave two answers — the claimed bound is exceeded. -/
theorem C4_counterexample :
    jobC.questions.length = 1 ∧
    (runRecords jobC inter1
      [(0, "u0", Except.ok "t0"), (5, "u5", Except.ok "t5")]).answers.length = 2 := by
  decide

/-- C4, amended: for every sequence of recording callbacks whose question
indices lie in `[0, len(questions))`, the answer count never exceeds the
question count. -/
theorem C4_theorem (job : Job) (iid cid : String) (recs : List RecCall)
    (hin : ∀ r ∈ recs, 0 ≤ r.1 ∧ r.1 < (job.questions.length : Int)) :
    (runRecords job (mkInterview iid job.id cid) recs).answers.length
      ≤ job.questions.length := by
  apply length_le_of_bounded
  refine runRecords_boundedIdx job recs _ _ ?_ hin
  exact ⟨by simp [mkInterview], by simp [mkInterview]⟩

/-- C4, witness: in-range deliveries against the three-question job stay
within the bound. -/
theorem C4_witness :
    (runRecords jobA (mkInterview "iw" jobA.id "cw")
      [(0, "u", Except.ok "t"), (2, "v", Except.ok "s"),
       (0, "w", Except.ok "t2")]).answers.length ≤ jobA.questions.length :=
  C4_theorem jobA "iw" "cw" _ (by decide)

/-- C5, counterexample: `final_recommendation` is set to `Neutral` by a
first scoring pass whose `per_answer` list is empty, and a second read
re-scores and overwrites it with `Yes` — set twice and changed after being
non-null. -/
theorem C5_counterexample :
    (get_interview interC jobC (Except.ok recNeutral)).inter.final_recommendation
      = some "Neutral" ∧
    (get_interview (get_interview interC jobC (Except.ok recNeutral)).inter jobC
      (Except.ok recYes)).inter.final_recommendation = some "Yes" := by
  decide

/-- C5, amended: once the stored recommendation is truthy and at least one
stored answer carries a `score` key, no sequence of call-status events,
recording callbacks and result reads changes `final_recommendation`
(dev-mode simulate-answers discards stored scores and re-enables
re-scoring, so it is excluded). -/
theorem C5_theorem (job : Job) (inter : Interview) (ops : List Op)
    (h1 : pyTruthy inter.final_recommendation = true)
    (h2 : inter.answers.any (fun a => a.score.isSome) = true)
    (hops : ∀ op ∈ ops, notSim op = true) :
    (runOps job inter ops).final_recommendation = inter.final_recommendation := by
  induction ops generalizing inter with
  | nil => rfl
  | cons op ops ih =>
    have hrest : ∀ o ∈ ops, notSim o = true :=
      fun o ho => hops o (List.mem_cons.mpr (Or.inr ho))
    cases op with
    | callEvent s =>
      have e1 := voice_event_final s inter
      have e2 := voice_event_answers s inter
      show (runOps job (voice_event s inter) ops).final_recommendation = _
      rw [ih (voice_event s inter) (by rw [e1]; exact h1) (by rw [e2]; exact h2) hrest, e1]
    | recordCb q u t =>
      have e1 := applyRec_final job inter (q, u, t)
      show (runOps job (applyRec job inter (q, u, t)) ops).final_recommendation = _
      rw [ih (applyRec job inter (q, u, t)) (by rw [e1]; exact h1)
          (applyRec_scored job inter (q, u, t) h2) hrest, e1]
    | resultRead r =>
      have hns : needsScoring inter job = false := needsScoring_of_stable _ job ⟨h1, h2⟩
      show (runOps job (get_interview inter job r).inter ops).final_recommendation = _
      rw [get_interview_no_invoke _ _ _ hns]
      exact ih inter h1 h2 hrest
    | simAnswers f =>
      exact absurd (hops _ (List.mem_cons_self _ _)) (by simp [notSim])

/-- C5, witness: a scored interview with a truthy recommendation keeps it
unchanged across an event, a redelivery and a read. -/
theorem C5_witness :
    (runOps jobC interScored
      [Op.callEvent "failed", Op.recordCb 0 "u2" (Except.ok "t2"),
       Op.resultRead (Except.ok recYes)]).final_recommendation
      = interScored.final_recommendation :=
  C5_theorem jobC interScored _ (by decide) (by decide) (by decide)

/-- C6: delivering answers for indices 1,0,2 yields, once sorted by index,
the same stored collection as delivering 0,1,2; the sorted indices and
transcripts are 0,1,2 / a0,a1,a2; and the read invokes the scorer with the
ordered questions and index-ordered transcripts. -/
theorem C6_theorem :
    sortAnswers (runRecords jobA interA0 deliver102).answers
      = sortAnswers (runRecords jobA interA0 deliver012).answers ∧
    (sortAnswers (runRecords jobA interA0 deliver102).answers).map
      (fun a => (a.q_idx, a.transcript)) = [(0, "a0"), (1, "a1"), (2, "a2")] ∧
    (get_interview (runRecords jobA interA0 deliver102) jobA (Except.error ())).scorerArgs
      = some (["Q1", "Q2", "Q3"], ["a0", "a1", "a2"]) := by
  decide

/-- C7, counterexample: the claim fails for dispatch failures the code
does not detect.  A transport timeout raised by the `hx.post` call
propagates unhandled: the freshly created interview stays in `calling`,
never becomes `failed`, and the caller gets a generic propagated
exception rather than the dispatch-error contract. -/
theorem C7_counterexample :
    (dispatchResolve (mkInterview "i7" "j7" "c7")
      (DispatchOutcome.raised "ConnectTimeout")).2.status = "calling" ∧
    (dispatchResolve (mkInterview "i7" "j7" "c7")
      (DispatchOutcome.raised "ConnectTimeout")).2.status ≠ "failed" ∧
    (dispatchResolve (mkInterview "i7" "j7" "c7")
      (DispatchOutcome.raised "ConnectTimeout")).1
      = TriggerResult.unhandled "ConnectTimeout" := by
  decide

/-- C7, amended: only a dispatch failure detected as an HTTP error status
(provider response >= 300) marks the freshly created interview `failed`,
stores no provider_call_id, and surfaces the dispatch error to the trigger
caller; a dispatch failure that raises (transport error or timeout, JWT
configuration error, malformed response body) propagates unhandled and
leaves the interview in `calling` with no provider_call_id. -/
theorem C7_theorem (iid jid cid : String) (code : Nat) (body e : String) :
    ((dispatchResolve (mkInterview iid jid cid) (DispatchOutcome.httpError code body)).2.status
        = "failed" ∧
     (dispatchResolve (mkInterview iid jid cid)
        (DispatchOutcome.httpError code body)).2.provider_call_id = none ∧
     (dispatchResolve (mkInterview iid jid cid) (DispatchOutcome.httpError code body)).1
        = TriggerResult.httpError code body) ∧
    ((dispatchResolve (mkInterview iid jid cid) (DispatchOutcome.raised e)).2.status
        = "calling" ∧
     (dispatchResolve (mkInterview iid jid cid)
        (DispatchOutcome.raised e)).2.provider_call_id = none ∧
     (dispatchResolve (mkInterview iid jid cid) (DispatchOutcome.raised e)).1
        = TriggerResult.unhandled e) :=
  ⟨⟨rfl, rfl, rfl⟩, ⟨rfl, rfl, rfl⟩⟩

/-- C8: a recording callback whose transcription fails still succeeds, and
the answer is upserted with the sentinel transcript, which is a non-empty
string — the arrived answer is never dropped and counts as transcribed. -/
theorem C8_theorem (job : Job) (inter : Interview) (q : Int) (u e : String) :
    (voice_record (some inter) (some job) q (some u) (Except.error e)).1 = RecOutcome.ok ∧
    sentinelTranscript e ≠ "" ∧
    ∃ a ∈ ((voice_record (some inter) (some job) q (some u)
        (Except.error e)).2.getD inter).answers,
      a.q_idx = q ∧ a.transcript = sentinelTranscript e :=
  ⟨rfl, sentinel_ne_empty e,
   doUpsert_exists inter q (questionFor job q) u (localAudioFor inter.id q)
     (sentinelTranscript e)⟩

/-- C9, counterexample: a recording callback for an existing interview
whose job row is missing does not fail NotFound — evaluating
`len(job.questions)` on `None` raises an unhandled AttributeError
(500), contradicting the claimed 404 contract. -/
theorem C9_counterexample :
    (voice_record (some inter1) none 0 (some "u") (Except.ok "t")).1
      = RecOutcome.attrError ∧
    RecOutcome.attrError ≠ RecOutcome.notFound := by
  decide

/-- C9, amended: a missing interview id does fail NotFound, but a missing
job row yields an unhandled AttributeError for every non-negative question
index (and for a negative index the callback even succeeds), never
NotFound. -/
theorem C9_theorem (job? : Option Job) (inter : Interview) (q : Int) (u : String)
    (t : Except String String) :
    (voice_record none job? q (some u) t).1 = RecOutcome.notFound ∧
    (0 ≤ q → (voice_record (some inter) none q (some u) t).1 = RecOutcome.attrError) := by
  refine ⟨rfl, fun hq => ?_⟩
  unfold voice_record
  simp [hq]

/-- C9, witness: the amended theorem at a concrete missing-interview and
missing-job callback. -/
theorem C9_witness :
    (voice_record none (some jobC) 0 (some "u") (Except.ok "t")).1 = RecOutcome.notFound ∧
    (voice_record (some inter1) none 0 (some "u") (Except.ok "t")).1
      = RecOutcome.attrError :=
  ⟨(C9_theorem (some jobC) inter1 0 "u" (Except.ok "t")).1,
   (C9_theorem (some jobC) inter1 0 "u" (Except.ok "t")).2 (by decide)⟩

/-- C10: the `startswith(ARTIFACTS_DIR)` guard of `serve_artifact` accepts
the request `../artifacts-evil/secret`, which resolves to
`/work/artifacts-evil/secret` — outside the store root.  The code serves a
file outside the root whenever a sibling directory's name extends the
root's last component, contradicting the claimed rejection of every path
resolving outside the root. -/
theorem C10_theorem :
    serve_artifact_check "../artifacts-evil/secret" = true ∧
    insideRootData ARTIFACTS_DIR.data (resolvedPath "../artifacts-evil/secret") = false ∧
    resolvedPath "../artifacts-evil/secret" = "/work/artifacts-evil/secret".data := by
  decide

end Screener

